import Mathlib

/-
Shallow embedding of the ShadowVault snapshot/replication engine
(repository hoangsonww/ShadowVault-Decentralized-Backup-Agent).

Byte strings are List (Fin 256).  External library primitives used by the
code (Go stdlib crypto/sha256, crypto/aes+cipher GCM, crypto/ed25519,
encoding/base64, golang.org/x/crypto/argon2, time.Parse) are parameters of
the embedding, collected in the CryptoModel structure together with the
properties the code relies on (an idealized collision-free hash and a
correct AEAD round trip); a concrete executable instance is given for
evaluating theorems on concrete inputs.  The embedded key-value layer
models the three bbolt buckets as association lists with bolt semantics
(unique keys, Put overwrites, Get returns none when absent).
-/

set_option autoImplicit false

namespace ShadowVault

abbrev Byte := Fin 256
abbrev Bytes := List Byte

/-- Lowercase hex digit table, as used by Go encoding/hex. -/
def hexDigit (n : Fin 16) : Char :=
  match n.val with
  | 0 => '0' | 1 => '1' | 2 => '2' | 3 => '3'
  | 4 => '4' | 5 => '5' | 6 => '6' | 7 => '7'
  | 8 => '8' | 9 => '9' | 10 => 'a' | 11 => 'b'
  | 12 => 'c' | 13 => 'd' | 14 => 'e' | _ => 'f'

/-- One byte encodes to two lowercase hex characters. -/
def hexByte (b : Byte) : List Char :=
  [hexDigit ⟨b.val / 16, by omega⟩, hexDigit ⟨b.val % 16, by omega⟩]

/-- Model of Go hex.EncodeToString. -/
def hexEncode (data : Bytes) : String :=
  String.mk (data.flatMap hexByte)

/-- Inverse digit lookup used to prove hexEncode injective. -/
def hexDigitVal (c : Char) : Option (Fin 16) :=
  if c = '0' then some 0 else if c = '1' then some 1
  else if c = '2' then some 2 else if c = '3' then some 3
  else if c = '4' then some 4 else if c = '5' then some 5
  else if c = '6' then some 6 else if c = '7' then some 7
  else if c = '8' then some 8 else if c = '9' then some 9
  else if c = 'a' then some 10 else if c = 'b' then some 11
  else if c = 'c' then some 12 else if c = 'd' then some 13
  else if c = 'e' then some 14 else if c = 'f' then some 15
  else none

/-- Model of Go hex.DecodeString on a character list. -/
def hexDecodeChars : List Char → Option Bytes
  | [] => some []
  | [_] => none
  | c1 :: c2 :: rest =>
    match hexDigitVal c1, hexDigitVal c2, hexDecodeChars rest with
    | some hi, some lo, some bs =>
        some ((⟨hi.val * 16 + lo.val, by omega⟩ : Byte) :: bs)
    | _, _, _ => none

/-- Model of Go hex.DecodeString. -/
def hexDecode (s : String) : Option Bytes :=
  hexDecodeChars s.data

/-- Go []byte conversion of a string; the strings handled by the protocol
are ASCII (hex, base64, identifiers), for which byte-per-char is exact. -/
def strBytes (s : String) : Bytes :=
  s.data.map (fun c => (⟨c.toNat % 256, by omega⟩ : Byte))

/-- Parameters of the embedding: the external cryptographic primitives the
code calls, together with the two idealized properties the specification
relies on (collision-free content hash, AEAD decryption inverting
encryption under the same key and nonce). -/
structure CryptoModel where
  hash : Bytes → Bytes
  encrypt : (key : Bytes) → (nonce : Bytes) → (plaintext : Bytes) → Bytes
  decrypt : (key : Bytes) → (nonce : Bytes) → (ciphertext : Bytes) → Option Bytes
  sign : (priv : Bytes) → (msg : Bytes) → Bytes
  verify : (pub : Bytes) → (msg : Bytes) → (sig : Bytes) → Bool
  b64encode : Bytes → String
  b64decode : String → Option Bytes
  hash_inj : Function.Injective hash
  decrypt_encrypt : ∀ k n p, decrypt k n (encrypt k n p) = some p

/-- Concrete executable instance of the external primitives, used to
evaluate the theorems at concrete inputs: the hash is the identity
(injective), the AEAD appends a 16-byte tag of zeros, signing prefixes the
key, and base64 transport is modelled by the (also injective) hex codec. -/
def model0 : CryptoModel where
  hash := fun b => b
  encrypt := fun _ _ p => p ++ List.replicate 16 (0 : Byte)
  decrypt := fun _ _ c =>
    if c.length < 16 then none
    else if c.drop (c.length - 16) = List.replicate 16 (0 : Byte) then
      some (c.take (c.length - 16))
    else none
  sign := fun priv msg => priv ++ msg
  verify := fun pub msg sig => sig == pub ++ msg
  b64encode := hexEncode
  b64decode := hexDecode
  hash_inj := fun _ _ h => h
  decrypt_encrypt := by
    intro k n p
    simp only [List.length_append, List.length_replicate]
    have hlt : ¬ p.length + 16 < 16 := by omega
    have hsub : p.length + 16 - 16 = p.length := by omega
    simp [hlt, hsub, List.drop_left, List.take_left]

/-! Key-value layer (internal/persistence): bbolt buckets modelled as
association lists with unique keys.  Get returns none when the key is
absent, Put overwrites the existing entry or appends, Delete removes the
entry.  Transactions always commit in this sequential model. -/

def bget {α : Type} : List (String × α) → String → Option α
  | [], _ => none
  | (k', v) :: rest, k => if k' = k then some v else bget rest k

def bput {α : Type} : List (String × α) → String → α → List (String × α)
  | [], k, v => [(k, v)]
  | (k', v') :: rest, k, v =>
    if k' = k then (k, v) :: rest else (k', v') :: bput rest k v

def bdel {α : Type} : List (String × α) → String → List (String × α)
  | [], _ => []
  | (k', v) :: rest, k => if k' = k then bdel rest k else (k', v) :: bdel rest k

/-- Number of entries stored under a key (bolt keeps keys unique, so a
well-formed bucket has countKey at most one everywhere). -/
def countKey {α : Type} : List (String × α) → String → Nat
  | [], _ => 0
  | (k', _) :: rest, k => (if k' = k then 1 else 0) + countKey rest k

/-! Snapshot descriptor (internal/versioning, struct Snapshot).  The
timestamp is the RFC-3339 string stored in the JSON field; JSON
marshal/unmarshal round-trips are abstracted by storing descriptors
structurally in the snapshots bucket. -/

structure Snapshot where
  id : String
  parent : String
  timestamp : String
  chunks : List String
  meta : List (String × String)
  signerPub : String
  signature : String
deriving DecidableEq, Repr

/-- Repository state: the blocks and snapshots buckets plus the
randomness supply, a counter from which each fresh AES-GCM nonce drawn by
crypto.Encrypt (crypto/rand.Read) is taken. -/
structure RepoState where
  blocks : List (String × Bytes)
  snaps : List (String × Snapshot)
  rng : Nat
deriving DecidableEq, Repr

/-- The 12-byte nonce produced by the n-th call to crypto/rand. -/
def nonceOf (n : Nat) : Bytes :=
  List.replicate 12 (⟨n % 256, by omega⟩ : Byte)

/-! Chunker (internal/chunker/chunker.go).  Next reads up to max bytes
from the stream into a buffer, scans an FNV-1a rolling hash for a
boundary, and returns the prefix data[0:chunkEnd] of what was read; the
stream has advanced past all n read bytes. -/

/-- FNV-1a 32-bit step (hash/fnv New32a): xor the byte, multiply by the
prime, modulo 2^32. -/
def fnvStep (h : Nat) (b : Byte) : Nat :=
  ((h ^^^ b.val) * 16777619) % 4294967296

/-- FNV-1a 32-bit offset basis. -/
def fnvInit : Nat := 2166136261

/-- defaultMaskBits = 13, mask = (1 shl 13) - 1; the avg parameter of the
chunker is ignored by the source. -/
def defaultMask : Nat := (1 <<< 13) - 1

/-- The boundary scan loop of Chunker.Next: returns some chunkEnd when a
break fires, none when the loop runs off the end of the data (chunkEnd
then stays at the initial value, the length of the data read). -/
def scanBoundary (minSz maxSz mask : Nat) : List Byte → Nat → Nat → Option Nat
  | [], _, _ => none
  | b :: rest, i, h =>
    let h2 := fnvStep h b
    if minSz ≤ i ∧ h2 &&& mask = 0 then some (i + 1)
    else if maxSz - 1 ≤ i then some maxSz
    else scanBoundary minSz maxSz mask rest (i + 1) h2

/-- Chunker.Next on the remaining input: returns the emitted chunk (none
models the EndOfStream error return) and the remaining input after the
Read consumed n = min(max, length) bytes. -/
def chunkerNext (minSz maxSz : Nat) (rest : List Byte) : Option (List Byte) × List Byte :=
  let data := rest.take maxSz
  if data.length = 0 then (none, rest)
  else
    let chunkEnd :=
      match scanBoundary minSz maxSz defaultMask data 0 fnvInit with
      | some e => e
      | none => data.length
    (some (data.take chunkEnd), rest.drop data.length)

/-- Successive calls to Next until EndOfStream, driven by a fuel bound
(each call on a nonempty stream consumes at least one byte when max is
at least 1, so length-plus-one fuel is exact). -/
def chunkerRun (minSz maxSz : Nat) : Nat → List Byte → List (List Byte)
  | 0, _ => []
  | fuel + 1, rest =>
    match chunkerNext minSz maxSz rest with
    | (none, _) => []
    | (some c, rest2) => c :: chunkerRun minSz maxSz fuel rest2

/-- All chunks the chunker emits for a finite input. -/
def chunkerChunks (minSz maxSz : Nat) (input : List Byte) : List (List Byte) :=
  chunkerRun minSz maxSz (input.length + 1) input

/-! Chunk store / CAS (internal/storage/store.go).  The Store's baseKey
is passed explicitly; db transactions are the direct state updates. -/

/-- Store.PutChunk: hash the plaintext, hex encode, dedup on existing
key, otherwise encrypt with a fresh nonce and store nonce plus ciphertext
under the hex hash.  Returns the hash string and the new state. -/
def putChunk (M : CryptoModel) (key : Bytes) (s : RepoState) (plaintext : Bytes) :
    String × RepoState :=
  let hashStr := hexEncode (M.hash plaintext)
  match bget s.blocks hashStr with
  | some _ => (hashStr, s)
  | none =>
    let nonce := nonceOf s.rng
    let stored := nonce ++ M.encrypt key nonce plaintext
    (hashStr, { s with blocks := bput s.blocks hashStr stored, rng := s.rng + 1 })

/-- Store.GetChunk: read the stored value, split nonce (12 bytes) from
ciphertext, decrypt.  none models the error returns (not found, malformed,
decryption failure). -/
def getChunk (M : CryptoModel) (key : Bytes) (s : RepoState) (hashStr : String) :
    Option Bytes :=
  match bget s.blocks hashStr with
  | none => none
  | some stored =>
    if stored.length < 12 then none
    else M.decrypt key (stored.take 12) (stored.drop 12)

/-- Store.Get: raw stored value by hash. -/
def storeGet (s : RepoState) (hashStr : String) : Option Bytes :=
  bget s.blocks hashStr

/-- Store.Put: stores the data directly under the given hash, with no
hash recomputation and no dedup check. -/
def storePut (s : RepoState) (hashStr : String) (data : Bytes) : RepoState :=
  { s with blocks := bput s.blocks hashStr data }

/-- Store.Delete. -/
def storeDelete (s : RepoState) (hashStr : String) : RepoState :=
  { s with blocks := bdel s.blocks hashStr }

/-- Store.Exists. -/
def storeExists (s : RepoState) (hashStr : String) : Bool :=
  (bget s.blocks hashStr).isSome

/-- Store.ListAll: all chunk hashes. -/
def storeListAll (s : RepoState) : List String :=
  s.blocks.map Prod.fst

/-! Snapshot repository (internal/versioning). -/

def saveSnapshot (s : RepoState) (snap : Snapshot) : RepoState :=
  { s with snaps := bput s.snaps snap.id snap }

def loadSnapshot (s : RepoState) (id : String) : Option Snapshot :=
  bget s.snaps id

def deleteSnapshot (s : RepoState) (id : String) : RepoState :=
  { s with snaps := bdel s.snaps id }

def listAllSnapshots (s : RepoState) : List Snapshot :=
  s.snaps.map Prod.snd

/-! Protocol messages (internal/protocol/messages.go). -/

structure ChunkResponse where
  hash : String
  data : String
  signerPub : String
  signature : String
deriving DecidableEq, Repr

/-- ChunkResponse.Validate: decode the base64 signature and public key,
verify the signature over the literal payload hash, bar, data. -/
def chunkResponseValidate (M : CryptoModel) (resp : ChunkResponse) : Bool :=
  let payload := resp.hash ++ "|" ++ resp.data
  match M.b64decode resp.signature, M.b64decode resp.signerPub with
  | some sig, some pub => M.verify pub (strBytes payload) sig
  | _, _ => false

/-- The snapshot reconstructed by SnapshotAnnouncement.Validate with the
signature field left at its zero value. -/
def snapWithoutSignature (snap : Snapshot) : Snapshot :=
  { snap with signature := "" }

/-- SnapshotAnnouncement.Validate (internal/protocol): serialize the
descriptor without its signature (json.Marshal, a parameter of the
embedding), decode signature and public key from base64, verify with
Ed25519.  Returns false on any decode or verification failure. -/
def snapshotAnnouncementValidate (M : CryptoModel) (serialize : Snapshot → Bytes)
    (snap : Snapshot) : Bool :=
  let data := serialize (snapWithoutSignature snap)
  match M.b64decode snap.signature, M.b64decode snap.signerPub with
  | some sig, some pub => M.verify pub data sig
  | _, _ => false

/-! Sync engine inbound path (internal/p2p/sync.go). -/

/-- ChunkFetcher.HandleChunkResponse: validate the signature, base64
decode the data, recompute the hash of the decoded bytes and compare with
the hash field, then Store.Put.  none models the error returns (the store
is untouched on every error path); the pending-fetch channel notification
is concurrency plumbing that does not touch the store and is not
modelled. -/
def handleChunkResponse (M : CryptoModel) (s : RepoState) (resp : ChunkResponse) :
    Option RepoState :=
  if ¬ chunkResponseValidate M resp then none
  else
    match M.b64decode resp.data with
    | none => none
    | some data =>
      if hexEncode (M.hash data) ≠ resp.hash then none
      else some (storePut s resp.hash data)

/-! Verifier (internal/verification/verifier.go). -/

inductive ChunkErr where
  | notFound
  | invalid
deriving DecidableEq, Repr

/-- Verifier.verifyChunk: Store.Get (error yields ChunkNotFound), then
the hash of the stored encrypted value is compared with the chunk hash,
then Store.GetChunk must decrypt. -/
def verifyChunk (M : CryptoModel) (key : Bytes) (s : RepoState) (chunkHash : String) :
    Option ChunkErr :=
  match storeGet s chunkHash with
  | none => some ChunkErr.notFound
  | some data =>
    if hexEncode (M.hash data) ≠ chunkHash then some ChunkErr.invalid
    else
      match getChunk M key s chunkHash with
      | none => some ChunkErr.invalid
      | some _ => none

/-- Verifier.verifySignature: the source returns true unconditionally
(stub; the comment in the source says proper verification is left for
production). -/
def verifySignature (_snap : Snapshot) : Bool :=
  true

structure VerificationResult where
  snapshotID : String
  totalChunks : Nat
  verifiedChunks : Nat
  missingChunks : List String
  corruptedChunks : List String
  signatureValid : Bool
  success : Bool
deriving DecidableEq, Repr

/-- Verifier.VerifySnapshot: load the snapshot, check the signature
(stubbed true), classify every chunk in order as verified, missing or
corrupted, succeed iff the signature is valid and both lists are empty.
none models the snapshot-not-found error return. -/
def verifySnapshot (M : CryptoModel) (key : Bytes) (s : RepoState) (snapshotID : String) :
    Option VerificationResult :=
  match loadSnapshot s snapshotID with
  | none => none
  | some snap =>
    let sigOk := verifySignature snap
    let acc := snap.chunks.foldl
      (fun (a : List String × List String × Nat) h =>
        match verifyChunk M key s h with
        | some ChunkErr.notFound => (a.1 ++ [h], a.2.1, a.2.2)
        | some ChunkErr.invalid => (a.1, a.2.1 ++ [h], a.2.2)
        | none => (a.1, a.2.1, a.2.2 + 1))
      ([], [], 0)
    some
      { snapshotID := snapshotID
        totalChunks := snap.chunks.length
        verifiedChunks := acc.2.2
        missingChunks := acc.1
        corruptedChunks := acc.2.1
        signatureValid := sigOk
        success := sigOk && acc.1.isEmpty && acc.2.1.isEmpty }

/-- Verifier.RepairSnapshot: verify, return early when already
successful, invoke the injected fetch function on each missing chunk
(fetch errors are logged and ignored, so fetch is a state transformer),
and verify again. -/
def repairSnapshot (M : CryptoModel) (key : Bytes) (s : RepoState) (snapshotID : String)
    (fetch : String → RepoState → RepoState) :
    Option (VerificationResult × RepoState) :=
  match verifySnapshot M key s snapshotID with
  | none => none
  | some result =>
    if result.success then some (result, s)
    else
      let s2 := result.missingChunks.foldl (fun st h => fetch h st) s
      match verifySnapshot M key s2 snapshotID with
      | none => none
      | some result2 => some (result2, s2)

/-! Garbage collector (internal/gc/collector.go). -/

/-- Collector.deleteOldSnapshots: cutoff is now minus retentionDays days
(time.Now().AddDate(0, 0, -retentionDays), modelled on integer seconds;
for retentionDays = 0 both are exactly now).  Each listed snapshot whose
parsed timestamp is strictly before the cutoff is deleted; parse failures
are logged and skipped.  parseTime models time.Parse with RFC3339. -/
def deleteOldSnapshots (parseTime : String → Option Int) (now : Int)
    (retentionDays : Nat) (s : RepoState) : RepoState :=
  let cutoffTime : Int := now - (retentionDays : Int) * 86400
  (listAllSnapshots s).foldl
    (fun st snap =>
      match parseTime snap.timestamp with
      | none => st
      | some snapTime =>
        if snapTime < cutoffTime then deleteSnapshot st snap.id else st)
    s

/-- Collector.findReferencedChunks: union of the chunk lists of all
snapshots currently in the snapshots bucket. -/
def findReferencedChunks (s : RepoState) : List String :=
  (listAllSnapshots s).foldl (fun acc snap => acc ++ snap.chunks) []

/-- Collector.deleteUnreferencedChunks: enumerate the stored chunk hashes
and delete every one not in the referenced set (the Get for the freed-size
metric does not change the state and is not modelled). -/
def deleteUnreferencedChunks (referenced : List String) (s : RepoState) : RepoState :=
  (storeListAll s).foldl
    (fun st h => if h ∈ referenced then st else storeDelete st h)
    s

/-- Collector.Run: one garbage-collection cycle. -/
def gcRun (parseTime : String → Option Int) (now : Int) (retentionDays : Nat)
    (s : RepoState) : RepoState :=
  let s1 := deleteOldSnapshots parseTime now retentionDays s
  let referenced := findReferencedChunks s1
  deleteUnreferencedChunks referenced s1

/-! Crypto key derivation (internal/crypto/crypto.go) and its use by
agent.New (internal/agent/agent.go). -/

/-- DeriveKey: when the salt argument is nil a fresh 16-byte random salt
is drawn (crypto/rand.Read) and never persisted; argon2.IDKey is the
external KDF, a parameter of the embedding, and freshSalt is the
randomness drawn by this call. -/
def deriveKey (argon2id : Bytes → Bytes → Bytes) (freshSalt : Bytes)
    (passphrase : Bytes) (salt : Option Bytes) : Bytes :=
  match salt with
  | none => argon2id passphrase freshSalt
  | some givenSalt => argon2id passphrase givenSalt

/-- agent.New derives the master key with DeriveKey(passphrase, nil), so
every Agent construction consumes fresh randomness. -/
def agentMasterKey (argon2id : Bytes → Bytes → Bytes) (freshSalt : Bytes)
    (passphrase : Bytes) : Bytes :=
  deriveKey argon2id freshSalt passphrase none

/-! CAS invariant and concrete objects used to evaluate the theorems. -/

/-- Every entry of the blocks bucket was produced by Store.PutChunk:
it is keyed by the hex hash of a plaintext and holds a fresh nonce
followed by the encryption of that plaintext under the store key. -/
def wellFormedBlocks (M : CryptoModel) (key : Bytes) (blocks : List (String × Bytes)) : Prop :=
  ∀ kv ∈ blocks, ∃ p n,
    kv.1 = hexEncode (M.hash p) ∧ kv.2 = nonceOf n ++ M.encrypt key (nonceOf n) p

/-- Empty repository. -/
def st0 : RepoState := { blocks := [], snaps := [], rng := 0 }

/-- A 32-byte master key (storage.New requires exactly 32 bytes). -/
def key0 : Bytes := List.replicate 32 (0 : Byte)

/-- Concrete instance of the external time.Parse parameter: recognizes
the single literal timestamp used by the evaluation states. -/
def parseTime0 (s : String) : Option Int :=
  if s = "t999" then some 999 else none

/-- Concrete instance of the canonical-serialization parameter of
SnapshotAnnouncement.Validate. -/
def serialize0 (snap : Snapshot) : Bytes :=
  strBytes snap.id

/-- Scenario for the repair claim: one chunk written by PutChunk. -/
def c4put : String × RepoState := putChunk model0 key0 st0 [0]

/-- Content address of the chunk written by PutChunk. -/
def c4hash : String := c4put.1

/-- The correct raw stored bytes (nonce plus ciphertext) of that chunk. -/
def c4raw : Bytes := (storeGet c4put.2 c4hash).getD []

/-- A snapshot whose chunk list is exactly that chunk. -/
def c4snap : Snapshot :=
  { id := "snap-1", parent := "", timestamp := "t999", chunks := [c4hash],
    meta := [], signerPub := "", signature := "" }

/-- The repository after saving the snapshot and deleting the chunk. -/
def c4state : RepoState := storeDelete (saveSnapshot c4put.2 c4snap) c4hash

/-- Injected fetch function that re-stores the correct raw bytes. -/
def c4fetch : String → RepoState → RepoState :=
  fun h st => if h = c4hash then storePut st h c4raw else st

/-- A descriptor whose signature field is not a valid signature over the
canonical serialization (the signed payload would have to be the signer
key followed by the serialization, but it is the single byte 9). -/
def c5snapBad : Snapshot :=
  { id := "id1", parent := "", timestamp := "t999", chunks := [],
    meta := [], signerPub := hexEncode [1], signature := hexEncode [9] }

/-- Repository holding the badly signed descriptor. -/
def c5state : RepoState := { blocks := [], snaps := [("id1", c5snapBad)], rng := 0 }

/-- An old snapshot (timestamp parses to 999) referencing chunk aa. -/
def c2snap : Snapshot :=
  { id := "snap-old", parent := "", timestamp := "t999", chunks := ["aa"],
    meta := [], signerPub := "", signature := "" }

/-- Repository holding the old snapshot and its chunk. -/
def c2state : RepoState :=
  { blocks := [("aa", [1])], snaps := [("snap-old", c2snap)], rng := 0 }

/-- A snapshot with an unparseable timestamp (GC keeps it), for the GC
safety witness. -/
def c3snap : Snapshot :=
  { id := "snap-live", parent := "", timestamp := "not-a-time", chunks := ["aa"],
    meta := [], signerPub := "", signature := "" }

/-- Repository for the GC safety witness. -/
def c3state : RepoState :=
  { blocks := [("aa", [1]), ("bb", [2])], snaps := [("snap-live", c3snap)], rng := 0 }

/-- A well-signed concrete chunk response for the inbound-path witness:
hash 00 names the byte 0, data is its transport encoding, and the
signature is valid for the signing key 1 under model0. -/
def resp0 : ChunkResponse :=
  { hash := hexEncode (model0.hash [0])
    data := model0.b64encode [0]
    signerPub := model0.b64encode [1]
    signature := model0.b64encode (model0.sign [1] (strBytes (hexEncode (model0.hash [0]) ++ "|" ++ model0.b64encode [0]))) }

/-- Repository with an existing value under key aa, for the raw-put
overwrite witness. -/
def c10state : RepoState :=
  { blocks := [("aa", [7]), ("bb", [8])], snaps := [], rng := 0 }

/-! Bucket lemmas. -/

theorem bget_bput_self {α : Type} (b : List (String × α)) (k : String) (v : α) :
    bget (bput b k v) k = some v := by
  induction b with
  | nil => simp [bput, bget]
  | cons e rest ih =>
    obtain ⟨k', v'⟩ := e
    by_cases h : k' = k
    · simp [bput, h, bget]
    · simp [bput, h, bget, ih]

theorem bget_bput_ne {α : Type} (b : List (String × α)) (k k' : String) (v : α)
    (h : k' ≠ k) : bget (bput b k v) k' = bget b k' := by
  induction b with
  | nil => simp [bput, bget, Ne.symm h]
  | cons e rest ih =>
    obtain ⟨k0, v0⟩ := e
    by_cases h0 : k0 = k
    · subst h0
      simp [bput, bget, Ne.symm h]
    · simp [bput, h0, bget, ih]

theorem bget_mem {α : Type} :
    ∀ {b : List (String × α)} {k : String} {v : α}, bget b k = some v → (k, v) ∈ b := by
  intro b
  induction b with
  | nil => intro k v h; cases h
  | cons e rest ih =>
    intro k v h
    obtain ⟨k0, v0⟩ := e
    by_cases h0 : k0 = k
    · subst h0
      simp [bget] at h
      subst h
      exact List.mem_cons_self _ _
    · simp [bget, h0] at h
      exact List.mem_cons_of_mem _ (ih h)

theorem bget_bdel_ne {α : Type} (b : List (String × α)) (k k' : String)
    (h : k' ≠ k) : bget (bdel b k) k' = bget b k' := by
  induction b with
  | nil => rfl
  | cons e rest ih =>
    obtain ⟨k0, v0⟩ := e
    by_cases h0 : k0 = k
    · subst h0
      simp [bdel, bget, Ne.symm h, ih]
    · simp [bdel, h0, bget, ih]

theorem bget_eq_none_of_not_mem {α : Type} {b : List (String × α)} {k : String}
    (h : k ∉ b.map Prod.fst) : bget b k = none := by
  induction b with
  | nil => rfl
  | cons e rest ih =>
    obtain ⟨k0, v0⟩ := e
    simp only [List.map_cons, List.mem_cons] at h
    push_neg at h
    simp [bget, Ne.symm h.1, ih h.2]

theorem countKey_eq_zero_of_not_mem {α : Type} {b : List (String × α)} {k : String}
    (h : k ∉ b.map Prod.fst) : countKey b k = 0 := by
  induction b with
  | nil => rfl
  | cons e rest ih =>
    obtain ⟨k0, v0⟩ := e
    simp only [List.map_cons, List.mem_cons] at h
    push_neg at h
    simp [countKey, Ne.symm h.1, ih h.2]

theorem countKey_eq_one_of_nodup {α : Type} {b : List (String × α)} {k : String} {v : α}
    (hnd : (b.map Prod.fst).Nodup) (h : bget b k = some v) : countKey b k = 1 := by
  induction b with
  | nil => cases h
  | cons e rest ih =>
    obtain ⟨k0, v0⟩ := e
    simp only [List.map_cons, List.nodup_cons] at hnd
    by_cases h0 : k0 = k
    · subst h0
      simp [countKey, countKey_eq_zero_of_not_mem hnd.1]
    · simp only [bget, if_neg h0] at h
      simp [countKey, h0, ih hnd.2 h]

theorem countKey_bput_of_nodup {α : Type} {b : List (String × α)} {k : String} (v : α)
    (hnd : (b.map Prod.fst).Nodup) : countKey (bput b k v) k = 1 := by
  induction b with
  | nil => simp [bput, countKey]
  | cons e rest ih =>
    obtain ⟨k0, v0⟩ := e
    simp only [List.map_cons, List.nodup_cons] at hnd
    by_cases h0 : k0 = k
    · subst h0
      simp [bput, countKey, countKey_eq_zero_of_not_mem hnd.1]
    · simp [bput, h0, countKey, ih hnd.2]

/-! Hex-codec lemmas: the content address is an injective function of the
hashed bytes. -/

theorem hexDigitVal_hexDigit : ∀ d : Fin 16, hexDigitVal (hexDigit d) = some d := by
  decide

theorem hexDecodeChars_encode (bs : Bytes) :
    hexDecodeChars (bs.flatMap hexByte) = some bs := by
  induction bs with
  | nil => rfl
  | cons b t ih =>
    have hsplit : (b :: t).flatMap hexByte
        = hexDigit ⟨b.val / 16, by omega⟩ :: hexDigit ⟨b.val % 16, by omega⟩
            :: t.flatMap hexByte := by
      simp [hexByte]
    rw [hsplit]
    simp only [hexDecodeChars, hexDigitVal_hexDigit, ih]
    simp only [Option.some.injEq, List.cons.injEq, Fin.ext_iff, and_true]
    omega

theorem hexEncode_injective : Function.Injective hexEncode := by
  intro a b h
  have h2 : a.flatMap hexByte = b.flatMap hexByte := congrArg String.data h
  have ha := hexDecodeChars_encode a
  rw [h2, hexDecodeChars_encode b] at ha
  exact (Option.some.injEq b a).mp ha |>.symm

/-! Stored-value layout lemmas: a PutChunk value is a 12-byte nonce
followed by the AEAD output. -/

theorem nonceOf_length (n : Nat) : (nonceOf n).length = 12 := by
  simp [nonceOf]

theorem nonce_append_take (n : Nat) (e : Bytes) :
    (nonceOf n ++ e).take 12 = nonceOf n := by
  have h := List.take_left (nonceOf n) e
  rwa [nonceOf_length] at h

theorem nonce_append_drop (n : Nat) (e : Bytes) :
    (nonceOf n ++ e).drop 12 = e := by
  have h := List.drop_left (nonceOf n) e
  rwa [nonceOf_length] at h

theorem nonce_append_length (n : Nat) (e : Bytes) :
    ¬ (nonceOf n ++ e).length < 12 := by
  simp [List.length_append, nonceOf_length]

/-! Garbage-collector structure lemmas. -/

theorem deleteUnreferencedChunks_foldl_snaps (referenced : List String) :
    ∀ (L : List String) (s : RepoState),
      (L.foldl (fun st h => if h ∈ referenced then st else storeDelete st h) s).snaps
        = s.snaps := by
  intro L
  induction L with
  | nil => intro s; rfl
  | cons k t ih =>
    intro s
    rw [List.foldl_cons, ih]
    by_cases hk : k ∈ referenced
    · simp [hk]
    · simp [hk, storeDelete]

theorem deleteUnreferencedChunks_snaps (referenced : List String) (s : RepoState) :
    (deleteUnreferencedChunks referenced s).snaps = s.snaps :=
  deleteUnreferencedChunks_foldl_snaps referenced (storeListAll s) s

theorem deleteUnreferencedChunks_foldl_bget (referenced : List String) (H : String)
    (hmem : H ∈ referenced) :
    ∀ (L : List String) (s : RepoState),
      bget (L.foldl (fun st h => if h ∈ referenced then st else storeDelete st h) s).blocks H
        = bget s.blocks H := by
  intro L
  induction L with
  | nil => intro s; rfl
  | cons k t ih =>
    intro s
    rw [List.foldl_cons, ih]
    by_cases hk : k ∈ referenced
    · simp [hk]
    · have hne : H ≠ k := fun he => hk (he ▸ hmem)
      simp [hk, storeDelete, bget_bdel_ne s.blocks k H hne]

theorem deleteUnreferencedChunks_bget (referenced : List String) (H : String)
    (hmem : H ∈ referenced) (s : RepoState) :
    bget (deleteUnreferencedChunks referenced s).blocks H = bget s.blocks H :=
  deleteUnreferencedChunks_foldl_bget referenced H hmem (storeListAll s) s

theorem deleteOldSnapshots_foldl_blocks (parseTime : String → Option Int) (cutoff : Int) :
    ∀ (L : List Snapshot) (s : RepoState),
      (L.foldl (fun st snap =>
          match parseTime snap.timestamp with
          | none => st
          | some snapTime =>
            if snapTime < cutoff then deleteSnapshot st snap.id else st) s).blocks
        = s.blocks := by
  intro L
  induction L with
  | nil => intro s; rfl
  | cons snap t ih =>
    intro s
    rw [List.foldl_cons, ih]
    cases hp : parseTime snap.timestamp with
    | none => simp [hp]
    | some snapTime =>
      by_cases hc : snapTime < cutoff <;> simp [hp, hc, deleteSnapshot]

theorem deleteOldSnapshots_blocks (parseTime : String → Option Int) (now : Int)
    (retentionDays : Nat) (s : RepoState) :
    (deleteOldSnapshots parseTime now retentionDays s).blocks = s.blocks :=
  deleteOldSnapshots_foldl_blocks parseTime (now - (retentionDays : Int) * 86400)
    (listAllSnapshots s) s

theorem findReferencedChunks_foldl (L : List Snapshot) :
    ∀ acc : List String,
      L.foldl (fun a snap => a ++ snap.chunks) acc = acc ++ L.flatMap Snapshot.chunks := by
  induction L with
  | nil => intro acc; simp
  | cons snap t ih => intro acc; simp [ih, List.append_assoc]

theorem mem_findReferencedChunks {s : RepoState} {snap : Snapshot} {H : String}
    (hsnap : snap ∈ listAllSnapshots s) (hH : H ∈ snap.chunks) :
    H ∈ findReferencedChunks s := by
  simp only [findReferencedChunks, findReferencedChunks_foldl, List.nil_append,
    List.mem_flatMap]
  exact ⟨snap, hsnap, hH⟩

/-! Claim theorems. -/

/-- C1: the claim states that concatenating the chunks returned by
successive calls to Chunker.Next until EndOfStream reproduces the input
byte-for-byte for any parameters with 0 < min < max.  The code violates
this: Next reads up to max bytes from the stream but emits only the
prefix up to the boundary, discarding the rest of what was read.  With
min = 1, max = 4 and input bytes 2, 69, 0, the FNV-1a boundary fires
after the second byte, so the chunks concatenate to 2, 69 and the final
byte is lost. -/
theorem C1_chunker_drops_bytes :
    (chunkerChunks 1 4 [2, 69, 0]).flatten = [2, 69] ∧
      (chunkerChunks 1 4 [2, 69, 0]).flatten ≠ ([2, 69, 0] : List Byte) := by
  constructor
  · decide
  · decide

/-- C2: the claim states that retention_days = 0 deletes no snapshot by
age.  The code has no special case for zero: the cutoff is exactly now,
so every snapshot whose parsed timestamp is strictly before now is
deleted.  Evaluation at a repository holding one snapshot with timestamp
999 and now = 1000: after the GC cycle with retentionDays = 0 the
snapshot is gone. -/
theorem C2_gc_retention_zero_deletes :
    loadSnapshot c2state "snap-old" = some c2snap ∧
      loadSnapshot (gcRun parseTime0 1000 0 c2state) "snap-old" = none := by
  constructor
  · decide
  · decide

/-- C3: after a GC cycle, every chunk hash listed by a snapshot still
present in the snapshots bucket and present in the blocks bucket before
the cycle is still present in the blocks bucket after the cycle. -/
theorem C3_gc_preserves_referenced_chunks (parseTime : String → Option Int) (now : Int)
    (retentionDays : Nat) (s : RepoState) (id : String) (snap : Snapshot) (H : String)
    (hsnap : loadSnapshot (gcRun parseTime now retentionDays s) id = some snap)
    (hH : H ∈ snap.chunks)
    (hbefore : (storeGet s H).isSome) :
    (storeGet (gcRun parseTime now retentionDays s) H).isSome := by
  have hsnaps1 : loadSnapshot (deleteOldSnapshots parseTime now retentionDays s) id
      = some snap := by
    have := deleteUnreferencedChunks_snaps
      (findReferencedChunks (deleteOldSnapshots parseTime now retentionDays s))
      (deleteOldSnapshots parseTime now retentionDays s)
    simpa [gcRun, loadSnapshot, this] using hsnap
  have hmem : snap ∈ listAllSnapshots (deleteOldSnapshots parseTime now retentionDays s) :=
    List.mem_map_of_mem Prod.snd (bget_mem hsnaps1)
  have href : H ∈ findReferencedChunks (deleteOldSnapshots parseTime now retentionDays s) :=
    mem_findReferencedChunks hmem hH
  have hpres : storeGet (gcRun parseTime now retentionDays s) H
      = storeGet (deleteOldSnapshots parseTime now retentionDays s) H := by
    simpa [gcRun, storeGet] using
      deleteUnreferencedChunks_bget _ H href (deleteOldSnapshots parseTime now retentionDays s)
  have hblocks : storeGet (deleteOldSnapshots parseTime now retentionDays s) H
      = storeGet s H := by
    simp [storeGet, deleteOldSnapshots_blocks]
  rw [hpres, hblocks]
  exact hbefore

/-- Witness for C3: a repository with one live snapshot referencing chunk
aa; after a GC cycle with retention 5 days the snapshot (whose timestamp
does not parse) is retained and so is chunk aa, while the unreferenced
chunk bb is collected. -/
theorem C3_witness :
    loadSnapshot (gcRun parseTime0 1000 5 c3state) "snap-live" = some c3snap ∧
    "aa" ∈ c3snap.chunks ∧
    (storeGet c3state "aa").isSome ∧
    (storeGet (gcRun parseTime0 1000 5 c3state) "aa").isSome :=
  ⟨by decide, by decide, by decide,
    C3_gc_preserves_referenced_chunks parseTime0 1000 5 c3state "snap-live" c3snap "aa"
      (by decide) (by decide) (by decide)⟩

/-- C4: the claim states that repairing a snapshot whose single missing
chunk is re-fetched with the correct raw bytes reports Success = true.
The code cannot: verifyChunk compares the hash of the stored encrypted
bytes (nonce plus ciphertext) against the content address, which PutChunk
computed from the plaintext, so a chunk written by PutChunk and restored
byte-identically is classified corrupted and RepairSnapshot returns
Success = false even though the chunk is present afterwards. -/
theorem C4_repair_reports_failure :
    (repairSnapshot model0 key0 c4state "snap-1" c4fetch).map
        (fun pr => (pr.1.success, pr.1.corruptedChunks, storeExists pr.2 c4hash))
      = some (false, [c4hash], true) := by
  decide

/-- C5: the claim states that VerifySnapshot reports SignatureValid true
iff the descriptor's signature is a valid Ed25519 signature over the
canonical serialization without the signature field.  The code stubs
verifySignature to true, so a descriptor whose signature fails the real
protocol-level check (SnapshotAnnouncement.Validate) is still reported
SignatureValid = true. -/
theorem C5_signature_stub_reports_valid :
    snapshotAnnouncementValidate model0 serialize0 c5snapBad = false ∧
      (verifySnapshot model0 key0 c5state "id1").map
          (fun r => r.signatureValid) = some true := by
  constructor
  · decide
  · decide

/-- C6 counterexample: Store.Put performs no hash verification: storing
the byte 1 under the key 00 succeeds and leaves a value in the blocks
bucket whose hash differs from its key, contradicting the claim that Put
recomputes the hash and fails on mismatch. -/
theorem C6_put_has_no_hash_check :
    hexEncode (model0.hash [1]) ≠ "00" ∧
      storeGet (storePut st0 "00" [1]) "00" = some [1] := by
  constructor
  · decide
  · decide

/-- C6 amended: the hash-binding check of the inbound peer path lives in
ChunkFetcher.HandleChunkResponse, not in Store.Put: a response is stored
only when its transport-decoded data hashes exactly to the hash field,
and then the store update is exactly Store.Put of that data; on any
failure the store is untouched. -/
theorem C6_response_path_verifies_hash (M : CryptoModel) (s : RepoState)
    (resp : ChunkResponse) (s2 : RepoState)
    (hok : handleChunkResponse M s resp = some s2) :
    ∃ data, M.b64decode resp.data = some data ∧
      hexEncode (M.hash data) = resp.hash ∧ s2 = storePut s resp.hash data := by
  unfold handleChunkResponse at hok
  split at hok
  · exact Option.noConfusion hok
  · cases hd : M.b64decode resp.data with
    | none => rw [hd] at hok; exact Option.noConfusion hok
    | some data =>
      rw [hd] at hok
      simp only [ne_eq] at hok
      by_cases hh : hexEncode (M.hash data) = resp.hash
      · refine ⟨data, rfl, hh, ?_⟩
        rw [if_neg (not_not_intro hh)] at hok
        exact (Option.some.inj hok).symm
      · rw [if_pos hh] at hok
        exact Option.noConfusion hok

/-- Witness for C6 amended: a well-signed response carrying the byte 0
under its correct content address is accepted and stored by the inbound
path. -/
theorem C6_response_path_witness :
    ∃ data, model0.b64decode resp0.data = some data ∧
      hexEncode (model0.hash data) = resp0.hash ∧
      storePut st0 "00" [0] = storePut st0 resp0.hash data :=
  C6_response_path_verifies_hash model0 st0 resp0 (storePut st0 "00" [0]) (by decide)

/-- C7: CAS round trip: on a store whose blocks bucket contains only
values written by PutChunk (the CAS invariant), GetChunk after PutChunk
of a plaintext of length at most maxChunk returns exactly that
plaintext. -/
theorem C7_cas_roundtrip (M : CryptoModel) (key : Bytes) (s : RepoState)
    (P : Bytes) (maxChunk : Nat)
    (hwf : wellFormedBlocks M key s.blocks) (hlen : P.length ≤ maxChunk) :
    getChunk M key (putChunk M key s P).2 (putChunk M key s P).1 = some P := by
  cases hb : bget s.blocks (hexEncode (M.hash P)) with
  | none =>
    simp only [putChunk, hb]
    simp only [getChunk, bget_bput_self]
    rw [if_neg (nonce_append_length s.rng (M.encrypt key (nonceOf s.rng) P))]
    rw [nonce_append_take, nonce_append_drop]
    exact M.decrypt_encrypt key (nonceOf s.rng) P
  | some v =>
    obtain ⟨p, n, hk, hv⟩ := hwf _ (bget_mem hb)
    have hp : p = P := M.hash_inj (hexEncode_injective hk.symm)
    subst hp
    subst hv
    simp only [putChunk, hb]
    simp only [getChunk, hb]
    rw [if_neg (nonce_append_length n (M.encrypt key (nonceOf n) p))]
    rw [nonce_append_take, nonce_append_drop]
    exact M.decrypt_encrypt key (nonceOf n) p

/-- Witness for C7: round trip of the single-byte plaintext 5 on the
empty store. -/
theorem C7_witness :
    wellFormedBlocks model0 key0 st0.blocks ∧
      getChunk model0 key0 (putChunk model0 key0 st0 [5]).2
        (putChunk model0 key0 st0 [5]).1 = some [5] :=
  have hwf : wellFormedBlocks model0 key0 st0.blocks :=
    fun kv h => absurd h (List.not_mem_nil kv)
  ⟨hwf, C7_cas_roundtrip model0 key0 st0 [5] 65536 hwf (by decide)⟩

/-- C8: dedup idempotence: starting from a bucket with unique keys,
calling PutChunk twice on the same plaintext returns the same hash both
times, the second call leaves the state (blocks bucket and randomness
supply) completely unchanged, so it performs no encryption and no write,
and exactly one entry for that hash is in the blocks bucket. -/
theorem C8_dedup_idempotent (M : CryptoModel) (key : Bytes) (s : RepoState) (P : Bytes)
    (hnd : (s.blocks.map Prod.fst).Nodup) :
    (putChunk M key (putChunk M key s P).2 P).1 = (putChunk M key s P).1 ∧
    (putChunk M key (putChunk M key s P).2 P).2 = (putChunk M key s P).2 ∧
    countKey (putChunk M key s P).2.blocks (putChunk M key s P).1 = 1 := by
  cases hb : bget s.blocks (hexEncode (M.hash P)) with
  | none =>
    refine ⟨?_, ?_, ?_⟩
    · simp only [putChunk, hb, bget_bput_self]
    · simp only [putChunk, hb, bget_bput_self]
    · simp only [putChunk, hb]
      exact countKey_bput_of_nodup _ hnd
  | some v =>
    refine ⟨?_, ?_, ?_⟩
    · simp only [putChunk, hb]
    · simp only [putChunk, hb]
    · simp only [putChunk, hb]
      exact countKey_eq_one_of_nodup hnd hb

/-- Witness for C8: two PutChunk calls of the byte 3 on the empty
store. -/
theorem C8_witness :
    ((st0.blocks.map Prod.fst).Nodup) ∧
    (putChunk model0 key0 (putChunk model0 key0 st0 [3]).2 [3]).1
        = (putChunk model0 key0 st0 [3]).1 ∧
    (putChunk model0 key0 (putChunk model0 key0 st0 [3]).2 [3]).2
        = (putChunk model0 key0 st0 [3]).2 ∧
    countKey (putChunk model0 key0 st0 [3]).2.blocks (putChunk model0 key0 st0 [3]).1 = 1 :=
  ⟨by decide, C8_dedup_idempotent model0 key0 st0 [3] (by decide)⟩

/-- C9: DeriveKey with a nil salt draws a fresh random salt each call
(the randomness is an input of the embedding), so two Agent
constructions over the same repository with the same passphrase consume
different randomness and, the KDF being injective in the salt, obtain
different master keys. -/
theorem C9_fresh_salt_keys_differ (argon2id : Bytes → Bytes → Bytes)
    (passphrase r1 r2 : Bytes)
    (hinj : ∀ s1 s2 : Bytes, argon2id passphrase s1 = argon2id passphrase s2 → s1 = s2)
    (hne : r1 ≠ r2) :
    agentMasterKey argon2id r1 passphrase ≠ agentMasterKey argon2id r2 passphrase :=
  fun h => hne (hinj r1 r2 h)

/-- Witness for C9: with a salt-injective KDF instance and distinct
randomness 0 and 1 the two master keys differ. -/
theorem C9_witness :
    (∀ s1 s2 : Bytes, (fun (_ s : Bytes) => s) ([] : Bytes) s1
        = (fun (_ s : Bytes) => s) ([] : Bytes) s2 → s1 = s2) ∧
    ([0] : Bytes) ≠ [1] ∧
    agentMasterKey (fun _ s => s) [0] [] ≠ agentMasterKey (fun _ s => s) [1] [] :=
  ⟨fun _ _ h => h, by decide,
    C9_fresh_salt_keys_differ (fun _ s => s) [] [0] [1] (fun _ _ h => h) (by decide)⟩

/-- C10: Store.Put overwrites unconditionally: after Put the value under
the key is exactly the data passed, even when a different value was
already stored there, and every other key of the blocks bucket is
unchanged. -/
theorem C10_raw_put_overwrites (s : RepoState) (hashStr : String) (data : Bytes) :
    storeGet (storePut s hashStr data) hashStr = some data ∧
    ∀ k, k ≠ hashStr → storeGet (storePut s hashStr data) k = storeGet s k :=
  ⟨bget_bput_self s.blocks hashStr data,
    fun k hk => bget_bput_ne s.blocks hashStr k data hk⟩

/-- Witness for C10: key aa already holds the byte 7; Put replaces it
with the byte 1 and leaves key bb unchanged. -/
theorem C10_witness :
    storeGet c10state "aa" = some [7] ∧
    storeGet (storePut c10state "aa" [1]) "aa" = some [1] ∧
    storeGet (storePut c10state "aa" [1]) "bb" = storeGet c10state "bb" :=
  ⟨by decide, (C10_raw_put_overwrites c10state "aa" [1]).1,
    (C10_raw_put_overwrites c10state "aa" [1]).2 "bb" (by decide)⟩

end ShadowVault
